import Mathlib

/-!
Shallow embedding of the local agent-assignment server
(`src/agent-assignment-servers/local/main.ts`) and proofs about it.

The server keeps an ordered list of `Task` records, persists it to a JSON
document after every mutation, serves two HTTP operations (status snapshot
and submission with replace-by-id), and drives queued tasks one at a time
through an external command plus a git stash/add/commit/rev-parse sequence.

The embedding below translates that file's data model and control flow into
pure Lean functions.  Effects are made explicit:
  * subprocess results (exit codes, captured stdout/stderr) and the outcomes
    of the fallible `saveTasks` writes become fields of an environment
    record (`ExecEnv` / `QueueEnv`) that parameterises the executor;
  * the JavaScript single-threaded interleaving of the HTTP handler with the
    queue processor becomes a small-step transition relation (`Step`) over a
    server state, with one step per atomic (await-free) code segment;
  * JavaScript object-reference mutation of a task that may have been
    spliced out of the array is modelled by tagging every stored task with
    an allocation key and updating by key (an absent key is a stale
    reference: the write hits no store entry).
-/

namespace AgentServer

/-- Task lifecycle status, from the `status` union type in `main.ts`. -/
inductive Status where
  | queued
  | inProgress
  | completed
  | error
deriving DecidableEq, Repr

/-- The `Task` record of `main.ts` (lines 45-53).  `submittedAt` is the ISO
timestamp string produced by `new Date().toISOString()`; `commit` and
`error` are the optional terminal-transition fields. -/
structure Task where
  id : String
  prompt : String
  dependencies : List String
  status : Status
  submittedAt : String
  commit : Option String
  error : Option String
deriving DecidableEq, Repr

/-- JavaScript `Array.prototype.findIndex`, returning `none` for `-1`. -/
def jsFindIndex (p : α → Bool) : List α → Option Nat
  | [] => none
  | a :: l => if p a then some 0 else (jsFindIndex p l).map (· + 1)

/-- A POST body as declared by the API: `{ id, prompt, dependencies }`. -/
structure Submission where
  id : String
  prompt : String
  dependencies : List String
deriving DecidableEq, Repr

/-- The task object built by the POST handler (lines 133-137):
`{ ...task, status: "queued", submittedAt: new Date().toISOString() }`. -/
def newTaskOf (sub : Submission) (now : String) : Task :=
  { id := sub.id
    prompt := sub.prompt
    dependencies := sub.dependencies
    status := Status.queued
    submittedAt := now
    commit := none
    error := none }

/-- Remove the first element satisfying `p`, as `findIndex` + `splice(i, 1)`
do in the POST handler (lines 128-131); a missing match removes nothing. -/
def removeFirst (p : α → Bool) (l : List α) : List α :=
  match jsFindIndex p l with
  | none => l
  | some i => l.eraseIdx i

/-- The POST handler's store mutation (lines 128-138): drop the first task
with the submitted id, then push the new queued task at the tail. -/
def submitStep (ts : List Task) (sub : Submission) (now : String) : List Task :=
  removeFirst (fun t => decide (t.id = sub.id)) ts ++ [newTaskOf sub now]

/-- Crash-recovery normalisation applied to the parsed document (lines
86-91): every `in-progress` task is reset to `queued`, nothing else moves. -/
def recoverTasks (ts : List Task) : List Task :=
  ts.map fun t =>
    if t.status = Status.inProgress then { t with status := Status.queued } else t

/-- Startup load (lines 83-98): `none` models the absent / unreadable
document (the `catch` leaves `tasks = []`), `some ts` the parsed document,
which is normalised by the crash-recovery rule. -/
def loadTasks : Option (List Task) → List Task
  | none => []
  | some ts => recoverTasks ts

/-- JavaScript `String.prototype.trim`: strip whitespace from both ends. -/
def jsTrim (s : String) : String :=
  String.mk (((s.data.dropWhile Char.isWhitespace).reverse.dropWhile
    Char.isWhitespace).reverse)

/-- The queue scan of `processQueue` (line 63):
`tasks.find((task) => task.status === "queued")`. -/
def pickTask (ts : List Task) : Option Task :=
  ts.find? fun t => decide (t.status = Status.queued)

/-- Environment of one `processTask` run: subprocess results and the
outcomes of its three fallible `saveTasks` writes.  The `stash`, `add` and
`commit` exit codes are recorded because the child processes return them,
even though `processTask` never reads them. -/
structure ExecEnv where
  stashCode : Nat
  cmdCode : Nat
  cmdStderr : String
  addCode : Nat
  commitCode : Nat
  revParseCode : Nat
  revParseStdout : String
  revParseStderr : String
  saveInProgressOk : Bool
  saveInProgressMsg : String
  saveTerminalOk : Bool
  saveTerminalMsg : String
  saveCatchOk : Bool
  saveCatchMsg : String
deriving DecidableEq, Repr

/-- One `processTask` call (lines 153-210) on the task object's current
field values.  Returns the object's final fields, and `some msg` when an
exception escaped `processTask` itself: only the `saveTasks` before the
`try` (line 155) or the `saveTasks` inside the `catch` (line 208) can
escape; everything thrown inside the `try` — including a failing terminal
save at line 204 — is caught at line 205, which sets `status = "error"` and
`error = e.message` but clears nothing else. -/
def processTask (env : ExecEnv) (task : Task) : Task × Option String :=
  let t1 : Task := { task with status := Status.inProgress }
  if env.saveInProgressOk = false then
    (t1, some env.saveInProgressMsg)
  else
    -- `git stash` output is awaited but its exit code is never inspected.
    if env.cmdCode ≠ 0 then
      let msg := "Command failed with code " ++ toString env.cmdCode ++ ": " ++ env.cmdStderr
      let t2 : Task := { t1 with status := Status.error, error := some msg }
      if env.saveCatchOk then (t2, none) else (t2, some env.saveCatchMsg)
    else
      -- `git add .` and `git commit` outputs are awaited, codes never inspected.
      if env.revParseCode = 0 then
        let t2 : Task := { t1 with commit := some (jsTrim env.revParseStdout) }
        let t3 : Task := { t2 with status := Status.completed }
        if env.saveTerminalOk then (t3, none)
        else
          let t4 : Task := { t3 with status := Status.error, error := some env.saveTerminalMsg }
          if env.saveCatchOk then (t4, none) else (t4, some env.saveCatchMsg)
      else
        let msg := "git rev-parse failed: " ++ env.revParseStderr
        let t2 : Task := { t1 with status := Status.error, error := some msg }
        if env.saveCatchOk then (t2, none) else (t2, some env.saveCatchMsg)

/-- Environment of one `processQueue` iteration: the executor environment
plus the outcome of the `saveTasks` in the `catch` at line 75. -/
structure QueueEnv where
  exec : ExecEnv
  saveAfterCatchOk : Bool
deriving DecidableEq, Repr

/-- One task settled at the `processQueue` level (lines 69-80): an exception
escaping `processTask` is caught there, the task marked `error` with the
exception's message, and the state saved again.  The boolean is false when
that last save itself fails — its rejection is unhandled and kills the
process. -/
def settleTask (qe : QueueEnv) (t : Task) : Task × Bool :=
  match processTask qe.exec t with
  | (t1, none) => (t1, true)
  | (t1, some msg) =>
      ({ t1 with status := Status.error, error := some msg }, qe.saveAfterCatchOk)

/-- The drain loop of `processQueue` (the tail call at line 79) in a run
with no interleaved submissions: repeatedly find the first queued task,
settle it in place, continue while the process survives.  The environment
list bounds how many iterations have their subprocess results specified.
With no interleaving, the object reference held by `processTask` stays at
the index where `find` located it, so the in-place mutation is `List.set`. -/
def drainQueue : List QueueEnv → List Task → List Task
  | [], ts => ts
  | qe :: rest, ts =>
    match jsFindIndex (fun t => decide (t.status = Status.queued)) ts with
    | none => ts
    | some i =>
      match ts[i]? with
      | none => ts
      | some t =>
        let r := settleTask qe t
        let ts1 := ts.set i r.1
        if r.2 then drainQueue rest ts1 else ts1

/-- Ids of the tasks started by `drainQueue`, in start order. -/
def drainOrder : List QueueEnv → List Task → List String
  | [], _ => []
  | qe :: rest, ts =>
    match jsFindIndex (fun t => decide (t.status = Status.queued)) ts with
    | none => []
    | some i =>
      match ts[i]? with
      | none => []
      | some t =>
        let r := settleTask qe t
        let ts1 := ts.set i r.1
        if r.2 then t.id :: drainOrder rest ts1 else [t.id]

/-- HTTP responses the handler can produce.  `snapshot` abstracts the 200
JSON body `{ serverName, tasks }`; `internalServerError` is the 500 the
Deno server returns when the handler itself throws (a rejected `saveTasks`
in the POST branch). -/
inductive HResponse where
  | invalidHostname
  | unauthorized
  | snapshot (serverName : String) (tasks : List Task)
  | accepted
  | notFound
  | internalServerError
deriving DecidableEq, Repr

/-- HTTP status code of each response, from lines 112, 117, 121, 144, 147. -/
def HResponse.statusCode : HResponse → Nat
  | invalidHostname => 400
  | unauthorized => 401
  | snapshot _ _ => 200
  | accepted => 202
  | notFound => 404
  | internalServerError => 500

/-- An inbound request.  `path` is carried because requests have one, but
the handler never reads `req.url`, and the embedding consequently never
consults this field. -/
structure Request where
  host : Option String
  authorization : Option String
  method : String
  path : String
  body : Submission
deriving DecidableEq, Repr

/-- The first element of the JavaScript `hostHeader.split(":")`: the
characters before the first colon, or the whole string when it has none. -/
def hostBeforeColon (h : String) : String :=
  String.mk (h.data.takeWhile fun c => decide (c ≠ ':'))

/-- Host check, line 111: the part of the `Host` header before a colon must
equal `aa.localhost`; an absent (or empty, hence falsy) header fails. -/
def hostOk (req : Request) : Bool :=
  match req.host with
  | none => false
  | some h => decide (hostBeforeColon h = "aa.localhost")

/-- Authorization check, line 116: the header must be present and equal
`Bearer <token>` exactly. -/
def authOk (bearerToken : String) (req : Request) : Bool :=
  match req.authorization with
  | none => false
  | some a => decide (a = "Bearer " ++ bearerToken)

/-- The request handler (lines 109-148) as a function from a request and
the current store to a response and the new store.  `saveOk` is the outcome
of the `await saveTasks()` at line 139: when the write rejects, the handler
throws after the in-memory splice/push and the server answers 500; the
mutated store is kept either way.  The handler dispatches on the method
only — no branch examines the request path. -/
def handleRequest (bearerToken : String) (now : String) (saveOk : Bool)
    (req : Request) (ts : List Task) : HResponse × List Task :=
  if hostOk req = false then
    (HResponse.invalidHostname, ts)
  else if authOk bearerToken req = false then
    (HResponse.unauthorized, ts)
  else if req.method = "GET" then
    (HResponse.snapshot "Local Agent Assignment Server" ts, ts)
  else if req.method = "POST" then
    let ts1 := submitStep ts req.body now
    if saveOk then (HResponse.accepted, ts1) else (HResponse.internalServerError, ts1)
  else
    (HResponse.notFound, ts)

/-!
Interleaved execution.  JavaScript runs the handler and the queue processor
on one event loop: code between `await` points is atomic, and the `await`s
inside `processTask` are where POST handlers can interleave.  A stored task
is a JavaScript object held by reference; `processTask` keeps mutating its
object even after a resubmission has spliced it out of the array.  `MTask`
tags each stored object with an allocation key so that "write through a
possibly stale reference" becomes "update the entry with this key, if any".
-/

/-- A stored task object: the allocation key models object identity. -/
structure MTask where
  key : Nat
  task : Task
deriving DecidableEq, Repr

/-- Whole-process state: the `tasks` array, the `isProcessing` gate
(line 56), and the key of the object the running `processTask` call holds,
if one is running. -/
structure SState where
  tasks : List MTask
  isProcessing : Bool
  running : Option Nat
  nextKey : Nat
deriving DecidableEq, Repr

/-- Tag a loaded task list with distinct keys. -/
def withKeys (ts : List Task) : List MTask :=
  ts.enum.map fun p => ⟨p.1, p.2⟩

/-- Process start: the document is loaded and normalised (lines 83-98),
the gate is clear, nothing is running. -/
def initState (doc : Option (List Task)) : SState :=
  { tasks := withKeys (loadTasks doc)
    isProcessing := false
    running := none
    nextKey := (loadTasks doc).length }

/-- The POST handler's splice on the keyed store (lines 128-131). -/
def removeFirstById (ms : List MTask) (i : String) : List MTask :=
  removeFirst (fun m => decide (m.task.id = i)) ms

/-- The POST handler's store mutation on the keyed store: splice out the
first entry with the submitted id, push a fresh object at the tail. -/
def submitStepM (ms : List MTask) (sub : Submission) (now : String) (k : Nat) : List MTask :=
  removeFirstById ms sub.id ++ [⟨k, newTaskOf sub now⟩]

/-- The queue scan of line 63 on the keyed store. -/
def findQueuedM (ms : List MTask) : Option MTask :=
  ms.find? fun m => decide (m.task.status = Status.queued)

/-- Write through an object reference: replace the fields of the entry
carrying key `k`; if that object was spliced out, no entry changes. -/
def setTaskByKey (ms : List MTask) (k : Nat) (t : Task) : List MTask :=
  ms.map fun m => if m.key = k then ⟨m.key, t⟩ else m

/-- Atomic transitions of the server, one per await-free code segment.

* `submit`: the POST handler body (lines 126-139) — it runs between any two
  awaits of the processor and touches neither the gate nor `running`.
* `start`: `processQueue` passing the gate check, finding a queued task,
  setting the gate, and `processTask` marking it in-progress (lines 59-68
  and 154) — no `await` separates these, so they form one step.
* `finish`: the running `processTask`/`processQueue` call writing the
  task's terminal fields through its object reference and then clearing the
  gate in the `finally` (lines 73-77, 190-209).  The written fields are
  whatever the executor computed; every such write has terminal status
  (`settleTask_status_terminal` below), which is all the invariant needs,
  so the step admits any terminal-valued write. -/
inductive Step : SState → SState → Prop
  | submit (s : SState) (sub : Submission) (now : String) :
      Step s { s with tasks := submitStepM s.tasks sub now s.nextKey
                      nextKey := s.nextKey + 1 }
  | start (s : SState) (m : MTask)
      (hgate : s.isProcessing = false)
      (hfind : findQueuedM s.tasks = some m) :
      Step s { s with tasks := setTaskByKey s.tasks m.key { m.task with status := Status.inProgress }
                      isProcessing := true
                      running := some m.key }
  | finish (s : SState) (k : Nat) (t : Task)
      (hgate : s.isProcessing = true)
      (hrun : s.running = some k)
      (hterm : t.status = Status.completed ∨ t.status = Status.error) :
      Step s { s with tasks := setTaskByKey s.tasks k t
                      isProcessing := false
                      running := none }

/-- States reachable from a process start on any persisted document. -/
inductive Reachable : SState → Prop
  | init (doc : Option (List Task)) : Reachable (initState doc)
  | step {s s' : SState} : Reachable s → Step s s' → Reachable s'

/-- Number of store entries currently marked in-progress. -/
def inProgressCount (ms : List MTask) : Nat :=
  ms.countP fun m => decide (m.task.status = Status.inProgress)

/-- Inductive invariant behind the single-worker guarantee: keys are below
the allocation counter and mutually distinct; with the gate clear no entry
is in-progress; with the gate set every in-progress entry is the running
object. -/
def Inv (s : SState) : Prop :=
  (∀ x ∈ s.tasks.map MTask.key, x < s.nextKey) ∧
  (s.tasks.map MTask.key).Nodup ∧
  (s.isProcessing = false → ∀ m ∈ s.tasks, m.task.status ≠ Status.inProgress) ∧
  (s.isProcessing = true → ∃ k, s.running = some k ∧
      ∀ m ∈ s.tasks, m.task.status = Status.inProgress → m.key = k)

/-- Mutual exclusivity of the terminal fields, as the data-model invariant
states it: a completed task has a commit and no error, an errored task has
an error and no commit, and a task not yet terminal has neither. -/
def ExclusiveFields (t : Task) : Prop :=
  (t.status = Status.completed → t.commit.isSome ∧ t.error = none) ∧
  (t.status = Status.error → t.error.isSome ∧ t.commit = none) ∧
  ((t.status = Status.queued ∨ t.status = Status.inProgress) →
    t.commit = none ∧ t.error = none)

/-- All three `saveTasks` writes of a `processTask` run succeed. -/
def SavesOk (qe : QueueEnv) : Prop :=
  qe.exec.saveInProgressOk = true ∧ qe.exec.saveTerminalOk = true ∧
  qe.exec.saveCatchOk = true

/-- Lexicographic less-or-equal on character lists. -/
def charsLE : List Char → List Char → Bool
  | [], _ => true
  | _ :: _, [] => false
  | a :: as, b :: bs =>
    if a < b then true
    else if b < a then false
    else charsLE as bs

/-- Order on `submittedAt` values: lexicographic comparison of the ISO-8601
strings produced by `new Date().toISOString()`, which coincides with
chronological order. -/
def timeLE (a b : String) : Bool := charsLE a.data b.data

/-- A freshly queued demonstration task. -/
def demoTask : Task := ⟨"a", "p", [], Status.queued, "t0", none, none⟩

/-- A second freshly queued demonstration task. -/
def demoTaskB : Task := ⟨"b", "q", [], Status.queued, "t1", none, none⟩

/-- Environment where every subprocess exits 0, `git rev-parse` prints a
sha plus newline, and every save write succeeds. -/
def demoOkEnv : ExecEnv := ⟨0, 0, "", 0, 0, 0, "abc123\n", "", true, "", true, "", true, ""⟩

/-- Environment where every subprocess exits 0 but the terminal `saveTasks`
write at line 204 rejects (message "disk full"); the save inside the catch
at line 208 succeeds. -/
def demoSaveFailEnv : ExecEnv :=
  ⟨0, 0, "", 0, 0, 0, "abc123\n", "", true, "", false, "disk full", true, ""⟩

/-- Environment where the configured external command exits 1 with stderr
"boom" and every save write succeeds. -/
def demoFailEnv : ExecEnv := ⟨0, 1, "boom", 0, 0, 0, "", "", true, "", true, "", true, ""⟩

/-! Helper lemmas. -/

theorem removeFirst_sublist (p : α → Bool) (l : List α) :
    List.Sublist (removeFirst p l) l := by
  unfold removeFirst
  cases jsFindIndex p l with
  | none => exact List.Sublist.refl l
  | some i => exact List.eraseIdx_sublist l i

theorem mem_of_mem_removeFirst {p : α → Bool} {l : List α} {a : α}
    (h : a ∈ removeFirst p l) : a ∈ l :=
  (removeFirst_sublist p l).subset h

theorem setTaskByKey_map_key (ms : List MTask) (k : Nat) (t : Task) :
    (setTaskByKey ms k t).map MTask.key = ms.map MTask.key := by
  unfold setTaskByKey
  rw [List.map_map]
  apply List.map_congr_left
  intro m _
  by_cases h : m.key = k <;> simp [h]

theorem mem_setTaskByKey {ms : List MTask} {k : Nat} {t : Task} {m' : MTask}
    (h : m' ∈ setTaskByKey ms k t) :
    (m'.key = k ∧ m'.task = t) ∨ (m' ∈ ms ∧ m'.key ≠ k) := by
  unfold setTaskByKey at h
  obtain ⟨m0, hm0, heq⟩ := List.mem_map.1 h
  by_cases hk : m0.key = k
  · rw [if_pos hk] at heq
    left
    rw [← heq]
    exact ⟨hk, rfl⟩
  · rw [if_neg hk] at heq
    right
    rw [← heq]
    exact ⟨hm0, hk⟩

theorem withKeys_map_key (ts : List Task) :
    (withKeys ts).map MTask.key = List.range ts.length := by
  unfold withKeys
  rw [List.map_map]
  have : (MTask.key ∘ fun p : Nat × Task => (⟨p.1, p.2⟩ : MTask)) = Prod.fst := rfl
  rw [this, List.enum_map_fst]

theorem task_mem_of_mem_withKeys {ts : List Task} {m : MTask}
    (h : m ∈ withKeys ts) : m.task ∈ ts := by
  unfold withKeys at h
  obtain ⟨p, hp, heq⟩ := List.mem_map.1 h
  have : m.task = p.2 := by rw [← heq]
  rw [this]
  exact List.snd_mem_of_mem_enum hp

theorem loadTasks_not_inProgress (doc : Option (List Task)) :
    ∀ t ∈ loadTasks doc, t.status ≠ Status.inProgress := by
  cases doc with
  | none => intro t ht; cases ht
  | some ts =>
    intro t ht
    obtain ⟨u, _, heq⟩ := List.mem_map.1 ht
    by_cases h : u.status = Status.inProgress
    · rw [if_pos h] at heq
      rw [← heq]
      intro hc
      cases hc
    · rw [if_neg h] at heq
      rw [← heq]
      exact h

theorem inProgressCount_le_one_of_key {ms : List MTask} {k : Nat}
    (hnd : (ms.map MTask.key).Nodup)
    (h : ∀ m ∈ ms, m.task.status = Status.inProgress → m.key = k) :
    inProgressCount ms ≤ 1 := by
  induction ms with
  | nil => simp [inProgressCount]
  | cons a l ih =>
    rw [List.map_cons, List.nodup_cons] at hnd
    unfold inProgressCount at ih ⊢
    rw [List.countP_cons]
    by_cases ha : a.task.status = Status.inProgress
    · have hak : a.key = k := h a (List.mem_cons_self a l) ha
      have hzero : l.countP (fun m => decide (m.task.status = Status.inProgress)) = 0 := by
        rw [List.countP_eq_zero]
        intro m hm hdec
        have hms : m.task.status = Status.inProgress := of_decide_eq_true hdec
        have hmk : m.key = k := h m (List.mem_cons_of_mem a hm) hms
        exact hnd.1 (by rw [← hak] at hmk; rw [← hmk]; exact List.mem_map_of_mem MTask.key hm)
      simp [hzero, ha]
    · have := ih hnd.2 (fun m hm hs => h m (List.mem_cons_of_mem a hm) hs)
      simp only [ha, decide_eq_true_eq, if_false]
      simpa using this

theorem inProgressCount_eq_zero {ms : List MTask}
    (h : ∀ m ∈ ms, m.task.status ≠ Status.inProgress) :
    inProgressCount ms = 0 := by
  unfold inProgressCount
  rw [List.countP_eq_zero]
  intro m hm hdec
  exact h m hm (of_decide_eq_true hdec)

/-! The single-worker invariant. -/

theorem inv_init (doc : Option (List Task)) : Inv (initState doc) := by
  refine ⟨?_, ?_, ?_, ?_⟩
  · intro x hx
    rw [show (initState doc).tasks = withKeys (loadTasks doc) from rfl, withKeys_map_key] at hx
    exact List.mem_range.1 hx
  · rw [show (initState doc).tasks = withKeys (loadTasks doc) from rfl, withKeys_map_key]
    exact List.nodup_range _
  · intro _ m hm
    exact loadTasks_not_inProgress doc m.task (task_mem_of_mem_withKeys hm)
  · intro htrue
    cases htrue

theorem mem_submitStepM {ms : List MTask} {sub : Submission} {now : String} {k : Nat}
    {m : MTask} (h : m ∈ submitStepM ms sub now k) :
    m ∈ ms ∨ m = ⟨k, newTaskOf sub now⟩ := by
  unfold submitStepM at h
  rw [List.mem_append] at h
  cases h with
  | inl h => exact Or.inl (mem_of_mem_removeFirst h)
  | inr h =>
    right
    simpa using h

theorem submitStepM_map_key (ms : List MTask) (sub : Submission) (now : String) (k : Nat) :
    (submitStepM ms sub now k).map MTask.key
      = (removeFirstById ms sub.id).map MTask.key ++ [k] := by
  unfold submitStepM
  simp

theorem inv_step {s s' : SState} (hinv : Inv s) (hstep : Step s s') : Inv s' := by
  obtain ⟨hbound, hnd, hgateF, hgateT⟩ := hinv
  cases hstep with
  | submit sub now =>
    refine ⟨?_, ?_, ?_, ?_⟩
    · intro x hx
      dsimp only at hx ⊢
      rw [submitStepM_map_key, List.mem_append] at hx
      cases hx with
      | inl hx =>
        obtain ⟨m, hm, heq⟩ := List.mem_map.1 hx
        have hms : m ∈ s.tasks := mem_of_mem_removeFirst hm
        have := hbound m.key (List.mem_map_of_mem MTask.key hms)
        omega
      | inr hx =>
        simp only [List.mem_singleton] at hx
        omega
    · dsimp only
      rw [submitStepM_map_key]
      apply List.Nodup.append
      · exact hnd.sublist ((removeFirst_sublist _ s.tasks).map MTask.key)
      · simp
      · intro x hx hx'
        simp only [List.mem_singleton] at hx'
        obtain ⟨m, hm, heq⟩ := List.mem_map.1 hx
        have hms : m ∈ s.tasks := mem_of_mem_removeFirst hm
        have := hbound m.key (List.mem_map_of_mem MTask.key hms)
        omega
    · intro hp m hm
      dsimp only at hp hm
      cases mem_submitStepM hm with
      | inl h => exact hgateF hp m h
      | inr h =>
        rw [h]
        intro hc
        cases hc
    · intro hp
      dsimp only at hp ⊢
      obtain ⟨k, hk, hall⟩ := hgateT hp
      refine ⟨k, hk, ?_⟩
      intro m hm hs
      cases mem_submitStepM hm with
      | inl h => exact hall m h hs
      | inr h =>
        rw [h] at hs
        cases hs
  | start m hgate hfind =>
    refine ⟨?_, ?_, ?_, ?_⟩
    · intro x hx
      dsimp only at hx ⊢
      rw [setTaskByKey_map_key] at hx
      exact hbound x hx
    · dsimp only
      rw [setTaskByKey_map_key]
      exact hnd
    · intro hc
      cases hc
    · intro _
      refine ⟨m.key, rfl, ?_⟩
      intro m' hm' hs
      dsimp only at hm'
      cases mem_setTaskByKey hm' with
      | inl h => exact h.1
      | inr h => exact absurd hs (hgateF hgate m' h.1)
  | finish k t hgate hrun hterm =>
    refine ⟨?_, ?_, ?_, ?_⟩
    · intro x hx
      dsimp only at hx ⊢
      rw [setTaskByKey_map_key] at hx
      exact hbound x hx
    · dsimp only
      rw [setTaskByKey_map_key]
      exact hnd
    · intro _ m' hm'
      dsimp only at hm'
      cases mem_setTaskByKey hm' with
      | inl h =>
        rw [h.2]
        cases hterm with
        | inl ht => rw [ht]; intro hc; cases hc
        | inr ht => rw [ht]; intro hc; cases hc
      | inr h =>
        obtain ⟨k', hk', hall⟩ := hgateT hgate
        intro hs
        have hkk : k' = k := by
          rw [hrun] at hk'
          exact (Option.some_inj.1 hk').symm
        exact absurd (by rw [hall m' h.1 hs, hkk]) h.2
    · intro hc
      cases hc

theorem inv_reachable {s : SState} (h : Reachable s) : Inv s := by
  induction h with
  | init doc => exact inv_init doc
  | step _ hstep ih => exact inv_step ih hstep

/-- C1: in every state the server can reach — across any interleaving of
submissions, queue starts and task completions within one process — at most
one stored task has status in-progress; and whenever the `isProcessing`
gate is clear, none has.  The gate is set in the same atomic segment that
marks a task in-progress and cleared only by the step that writes that
task's terminal fields, so a second task is never marked in-progress while
it is set. -/
theorem single_worker_guarantee (s : SState) (h : Reachable s) :
    inProgressCount s.tasks ≤ 1 ∧
    (s.isProcessing = false → inProgressCount s.tasks = 0) := by
  obtain ⟨_, hnd, hgateF, hgateT⟩ := inv_reachable h
  constructor
  · cases hb : s.isProcessing with
    | false =>
      rw [inProgressCount_eq_zero (hgateF hb)]
      omega
    | true =>
      obtain ⟨k, _, hall⟩ := hgateT hb
      exact inProgressCount_le_one_of_key hnd hall
  · intro hb
    exact inProgressCount_eq_zero (hgateF hb)

/-- Witness for C1 at a concrete run: start from no document, submit task
"a", let the processor pick it up; the reached state has one in-progress
task, within the bound. -/
theorem single_worker_guarantee_witness :
    inProgressCount (setTaskByKey
        (submitStepM (initState none).tasks ⟨"a", "p", []⟩ "t0" (initState none).nextKey)
        0 { newTaskOf ⟨"a", "p", []⟩ "t0" with status := Status.inProgress }) ≤ 1 ∧
    ((true : Bool) = false →
      inProgressCount (setTaskByKey
        (submitStepM (initState none).tasks ⟨"a", "p", []⟩ "t0" (initState none).nextKey)
        0 { newTaskOf ⟨"a", "p", []⟩ "t0" with status := Status.inProgress }) = 0) :=
  single_worker_guarantee _
    (Reachable.step
      (Reachable.step (Reachable.init none)
        (Step.submit (initState none) ⟨"a", "p", []⟩ "t0"))
      (Step.start _ ⟨0, newTaskOf ⟨"a", "p", []⟩ "t0"⟩ rfl rfl))

/-! Replace-by-id submission (C3) and startup load (C4). -/

theorem removeFirst_cons (p : α → Bool) (a : α) (l : List α) :
    removeFirst p (a :: l) = if p a then l else a :: removeFirst p l := by
  by_cases h : p a
  · simp [removeFirst, jsFindIndex, h]
  · cases hj : jsFindIndex p l with
    | none => simp [removeFirst, jsFindIndex, h, hj]
    | some i => simp [removeFirst, jsFindIndex, h, hj]

theorem removeFirst_length_countP (p : α → Bool) (l : List α) (h : 0 < l.countP p) :
    (removeFirst p l).length + 1 = l.length ∧
    (removeFirst p l).countP p + 1 = l.countP p := by
  induction l with
  | nil => simp at h
  | cons a l ih =>
    rw [removeFirst_cons]
    by_cases hp : p a
    · rw [if_pos hp]
      refine ⟨by simp, ?_⟩
      rw [List.countP_cons, if_pos hp]
    · rw [if_neg hp]
      rw [List.countP_cons, if_neg hp, Nat.add_zero] at h
      obtain ⟨h1, h2⟩ := ih h
      refine ⟨?_, ?_⟩
      · simp only [List.length_cons]
        omega
      · rw [List.countP_cons, if_neg hp, List.countP_cons, if_neg hp]
        omega

/-- C3: submitting a task whose id already occurs (once, per the uniqueness
invariant) in the store removes that record and appends the fresh queued
task at the tail: the length is unchanged, exactly one entry carries the
id afterwards, the tail entry is the new record, and the new record is
queued with the fresh submission time. -/
theorem submit_replace_semantics (ts : List Task) (sub : Submission) (now : String)
    (h : ts.countP (fun t => decide (t.id = sub.id)) = 1) :
    (submitStep ts sub now).length = ts.length ∧
    (submitStep ts sub now).countP (fun t => decide (t.id = sub.id)) = 1 ∧
    (submitStep ts sub now).getLast? = some (newTaskOf sub now) ∧
    (newTaskOf sub now).status = Status.queued ∧
    (newTaskOf sub now).submittedAt = now := by
  have h0 : 0 < ts.countP (fun t => decide (t.id = sub.id)) := by omega
  obtain ⟨h1, h2⟩ := removeFirst_length_countP (fun t => decide (t.id = sub.id)) ts h0
  unfold submitStep
  refine ⟨?_, ?_, List.getLast?_concat _, rfl, rfl⟩
  · rw [List.length_append, List.length_singleton]
    omega
  · rw [List.countP_append]
    have hone : List.countP (fun t => decide (t.id = sub.id)) [newTaskOf sub now] = 1 := by
      simp [newTaskOf]
    omega

/-- Witness for C3: a store holding one completed task with id "a", and a
resubmission of "a". -/
theorem submit_replace_semantics_witness :
    ([newTaskOf ⟨"a", "old", []⟩ "t0"].countP
        (fun t => decide (t.id = (⟨"a", "new", []⟩ : Submission).id)) = 1) ∧
    (submitStep [newTaskOf ⟨"a", "old", []⟩ "t0"] ⟨"a", "new", []⟩ "t1").length
      = [newTaskOf ⟨"a", "old", []⟩ "t0"].length ∧
    (submitStep [newTaskOf ⟨"a", "old", []⟩ "t0"] ⟨"a", "new", []⟩ "t1").countP
        (fun t => decide (t.id = (⟨"a", "new", []⟩ : Submission).id)) = 1 ∧
    (submitStep [newTaskOf ⟨"a", "old", []⟩ "t0"] ⟨"a", "new", []⟩ "t1").getLast?
      = some (newTaskOf ⟨"a", "new", []⟩ "t1") ∧
    (newTaskOf ⟨"a", "new", []⟩ "t1").status = Status.queued ∧
    (newTaskOf ⟨"a", "new", []⟩ "t1").submittedAt = "t1" :=
  ⟨by decide, submit_replace_semantics [newTaskOf ⟨"a", "old", []⟩ "t0"] ⟨"a", "new", []⟩ "t1"
    (by decide)⟩

/-- C4: a missing persisted document loads as the empty store rather than
an error; a present document keeps its length and order, each task keeps
every field except that an `in-progress` status is reset to `queued`, and
the loaded store contains no in-progress task. -/
theorem load_crash_recovery (doc : List Task) :
    loadTasks none = ([] : List Task) ∧
    (loadTasks (some doc)).length = doc.length ∧
    (∀ i : Nat, ∀ t : Task, doc[i]? = some t →
      (loadTasks (some doc))[i]? =
        some { t with status := if t.status = Status.inProgress then Status.queued
                                else t.status }) ∧
    (∀ t ∈ loadTasks (some doc), t.status ≠ Status.inProgress) := by
  refine ⟨rfl, by simp [loadTasks, recoverTasks], ?_, loadTasks_not_inProgress (some doc)⟩
  intro i t ht
  show (recoverTasks doc)[i]? = _
  unfold recoverTasks
  rw [List.getElem?_map, ht]
  simp only [Option.map_some']
  congr 1
  by_cases h : t.status = Status.inProgress
  · rw [if_pos h, if_pos h]
  · rw [if_neg h, if_neg h]

/-- Witness for C4: a document holding a single in-progress task loads as
that task with status queued. -/
theorem load_crash_recovery_witness :
    (loadTasks (some [(⟨"a", "p", [], Status.inProgress, "t0", none, none⟩ : Task)]))[0]? =
      some ⟨"a", "p", [],
        (if Status.inProgress = Status.inProgress then Status.queued else Status.inProgress),
        "t0", none, none⟩ :=
  (load_crash_recovery _).2.2.1 0 _ rfl

/-! Request dispatch (C7) and authentication errors (C8). -/

/-- Counterexample to C7 as stated: an authenticated GET whose path is not
"/" is answered with the 200 snapshot, not 404 — the handler dispatches on
the method alone and never reads the request path. -/
theorem routing_ignores_path_counterexample :
    (handleRequest "tok" "t0" true
        ⟨some "aa.localhost", some ("Bearer " ++ "tok"), "GET", "/status", ⟨"x", "p", []⟩⟩
        []).1 = HResponse.snapshot "Local Agent Assignment Server" [] ∧
    ((handleRequest "tok" "t0" true
        ⟨some "aa.localhost", some ("Bearer " ++ "tok"), "GET", "/status", ⟨"x", "p", []⟩⟩
        []).1).statusCode ≠ 404 := by
  constructor
  · rfl
  · decide

/-- C7 (amended): for every authenticated request whose method is neither
GET nor POST the server answers 404 and leaves the store unchanged; the
request path is ignored entirely, so the response is the same whatever
path the request carries. -/
theorem unrecognized_method_not_found (tok now : String) (saveOk : Bool) (req : Request)
    (ts : List Task) (hh : hostOk req = true) (ha : authOk tok req = true)
    (hm1 : req.method ≠ "GET") (hm2 : req.method ≠ "POST") :
    handleRequest tok now saveOk req ts = (HResponse.notFound, ts) ∧
    HResponse.statusCode HResponse.notFound = 404 ∧
    (∀ p : String,
      handleRequest tok now saveOk ⟨req.host, req.authorization, req.method, p, req.body⟩ ts
        = handleRequest tok now saveOk req ts) := by
  refine ⟨?_, rfl, fun p => rfl⟩
  simp [handleRequest, hh, ha, hm1, hm2]

/-- Witness for C7's amended statement: a DELETE with valid host and token
gets 404 and no store change. -/
theorem unrecognized_method_not_found_witness :
    handleRequest "tok" "t0" true
      ⟨some "aa.localhost", some ("Bearer " ++ "tok"), "DELETE", "/", ⟨"x", "p", []⟩⟩ []
      = (HResponse.notFound, []) :=
  (unrecognized_method_not_found "tok" "t0" true _ []
    (by decide) (by decide) (by decide) (by decide)).1

/-- C8: a request whose Host header is absent or does not name
`aa.localhost` before the colon is answered 400; one that passes the host
check but carries an absent or non-matching `Bearer` token is answered
401; in both cases the task sequence is returned unchanged. -/
theorem request_auth_errors (tok now : String) (saveOk : Bool) (req : Request)
    (ts : List Task) :
    (hostOk req = false →
      handleRequest tok now saveOk req ts = (HResponse.invalidHostname, ts)) ∧
    (hostOk req = true → authOk tok req = false →
      handleRequest tok now saveOk req ts = (HResponse.unauthorized, ts)) ∧
    HResponse.statusCode HResponse.invalidHostname = 400 ∧
    HResponse.statusCode HResponse.unauthorized = 401 := by
  refine ⟨?_, ?_, rfl, rfl⟩
  · intro hh
    simp [handleRequest, hh]
  · intro hh ha
    simp [handleRequest, hh, ha]

/-- Witness for C8: a wrong host gets 400, and a wrong bearer token on a
status query gets 401 with the store untouched. -/
theorem request_auth_errors_witness :
    handleRequest "tok" "t0" true
      ⟨some "evil.example", some ("Bearer " ++ "tok"), "GET", "/", ⟨"x", "p", []⟩⟩ []
      = (HResponse.invalidHostname, []) ∧
    handleRequest "tok" "t0" true
      ⟨some "aa.localhost", some "Bearer wrong", "GET", "/", ⟨"x", "p", []⟩⟩ []
      = (HResponse.unauthorized, []) :=
  ⟨(request_auth_errors "tok" "t0" true _ []).1 (by decide),
   (request_auth_errors "tok" "t0" true _ []).2.1 (by decide) (by decide)⟩

/-! Executor lemmas. -/

theorem jsFindIndex_spec {p : α → Bool} {l : List α} {i : Nat}
    (h : jsFindIndex p l = some i) : ∃ a, l[i]? = some a ∧ p a = true := by
  induction l generalizing i with
  | nil => cases h
  | cons x xs ih =>
    unfold jsFindIndex at h
    by_cases hp : p x
    · rw [if_pos hp] at h
      cases h
      exact ⟨x, List.getElem?_cons_zero, hp⟩
    · rw [if_neg hp] at h
      cases hj : jsFindIndex p xs with
      | none => rw [hj] at h; cases h
      | some j =>
        rw [hj] at h
        simp only [Option.map_some', Option.some_inj] at h
        obtain ⟨a, ha, hpa⟩ := ih hj
        refine ⟨a, ?_, hpa⟩
        rw [← h, List.getElem?_cons_succ]
        exact ha

theorem settleTask_of_no_escape {qe : QueueEnv} {t : Task}
    (h : (processTask qe.exec t).2 = none) :
    settleTask qe t = ((processTask qe.exec t).1, true) := by
  unfold settleTask
  rcases hp : processTask qe.exec t with ⟨t1, esc⟩
  rw [hp] at h
  simp only at h
  subst h
  rfl

/-- Every field write the queue level performs on the running task object
has terminal status: the executor itself ends in `completed` or `error`,
and an escape is converted to `error` by the catch at line 73.  This is the
fact that justifies the `finish` step admitting exactly the
terminal-status writes. -/
theorem settleTask_status_terminal (qe : QueueEnv) (t : Task) :
    (settleTask qe t).1.status = Status.completed ∨
    (settleTask qe t).1.status = Status.error := by
  unfold settleTask processTask
  by_cases h1 : qe.exec.saveInProgressOk = false
  · simp [h1]
  · by_cases h2 : qe.exec.cmdCode ≠ 0
    · by_cases h3 : qe.exec.saveCatchOk <;> simp [h1, h2, h3]
    · by_cases h4 : qe.exec.revParseCode = 0
      · by_cases h5 : qe.exec.saveTerminalOk <;> by_cases h6 : qe.exec.saveCatchOk <;>
          simp [h1, h2, h4, h5, h6]
      · by_cases h6 : qe.exec.saveCatchOk <;> simp [h1, h2, h4, h6]

theorem processTask_exclusive (env : ExecEnv) (t : Task)
    (h1 : env.saveInProgressOk = true) (h2 : env.saveTerminalOk = true)
    (h3 : env.saveCatchOk = true)
    (hc : t.commit = none) (he : t.error = none) :
    ExclusiveFields (processTask env t).1 ∧ (processTask env t).2 = none := by
  unfold processTask
  by_cases hcmd : env.cmdCode ≠ 0
  · simp [h1, h2, h3, hcmd, ExclusiveFields, hc, he]
  · by_cases hrev : env.revParseCode = 0
    · simp [h1, h2, h3, hcmd, hrev, ExclusiveFields, hc, he]
    · simp [h1, h2, h3, hcmd, hrev, ExclusiveFields, hc, he]

theorem newTaskOf_exclusive (sub : Submission) (now : String) :
    ExclusiveFields (newTaskOf sub now) := by
  simp [ExclusiveFields, newTaskOf]

theorem drainQueue_exclusive (qes : List QueueEnv) (ts : List Task)
    (hsave : ∀ qe ∈ qes, SavesOk qe) (hts : ∀ t ∈ ts, ExclusiveFields t) :
    ∀ t ∈ drainQueue qes ts, ExclusiveFields t := by
  induction qes generalizing ts with
  | nil => simpa [drainQueue] using hts
  | cons qe rest ih =>
    unfold drainQueue
    cases hj : jsFindIndex (fun t => decide (t.status = Status.queued)) ts with
    | none => simpa using hts
    | some i =>
      obtain ⟨a, ha, hpa⟩ := jsFindIndex_spec hj
      have hqe := hsave qe (List.mem_cons_self qe rest)
      have hexa := hts a (List.getElem?_mem ha)
      have haq : a.status = Status.queued := of_decide_eq_true hpa
      have hane := hexa.2.2 (Or.inl haq)
      obtain ⟨hex1, hesc⟩ :=
        processTask_exclusive qe.exec a hqe.1 hqe.2.1 hqe.2.2 hane.1 hane.2
      simp only [ha, settleTask_of_no_escape hesc, if_true]
      apply ih _ (fun q hq => hsave q (List.mem_cons_of_mem qe hq))
      intro u hu
      cases List.mem_or_eq_of_mem_set hu with
      | inl h => exact hts u h
      | inr h => rw [h]; exact hex1

/-- Counterexample to C2 as stated: run one queued task through an
execution in which the command and `git rev-parse` succeed but the terminal
`saveTasks` write fails.  The catch at line 205 re-marks the task `error`
and sets its error message without clearing `commit`, so the store ends up
holding a task with status error and BOTH `commit` and `error` set. -/
theorem terminal_exclusivity_counterexample :
    (drainQueue [⟨demoSaveFailEnv, true⟩] [demoTask]).map
        (fun t => (t.status, t.commit, t.error))
      = [(Status.error, some "abc123", some "disk full")] := by decide

/-- C2 (amended): provided every `saveTasks` write succeeds, terminal-field
exclusivity holds of every task the store can hold: tasks produced by the
queue drain and tasks produced by submission are completed-with-commit-only,
errored-with-error-only, or pre-terminal with neither field set. -/
theorem terminal_fields_exclusive (qes : List QueueEnv) (ts : List Task)
    (hsave : ∀ qe ∈ qes, SavesOk qe) (hts : ∀ t ∈ ts, ExclusiveFields t) :
    (∀ t ∈ drainQueue qes ts, ExclusiveFields t) ∧
    (∀ (sub : Submission) (now : String), ∀ t ∈ submitStep ts sub now, ExclusiveFields t) := by
  refine ⟨drainQueue_exclusive qes ts hsave hts, ?_⟩
  intro sub now t ht
  unfold submitStep at ht
  rw [List.mem_append] at ht
  cases ht with
  | inl h => exact hts t (mem_of_mem_removeFirst h)
  | inr h =>
    simp only [List.mem_singleton] at h
    rw [h]
    exact newTaskOf_exclusive sub now

/-- Witness for C2's amended statement: the all-writes-succeed run of one
queued task yields the completed task with a commit and no error. -/
theorem terminal_fields_exclusive_witness :
    ExclusiveFields ⟨"a", "p", [], Status.completed, "t0", some "abc123", none⟩ :=
  (terminal_fields_exclusive [⟨demoOkEnv, true⟩] [demoTask]
      (by
        intro qe hq
        simp only [List.mem_singleton] at hq
        subst hq
        exact ⟨rfl, rfl, rfl⟩)
      (by
        intro t ht
        simp only [List.mem_singleton] at ht
        subst ht
        exact ⟨fun h => absurd h (by decide), fun h => absurd h (by decide),
          fun _ => ⟨rfl, rfl⟩⟩)).1
    _ (by decide)

/-- C5: when the configured external command exits non-zero, the raised
failure carries the captured stderr text, is caught at the task boundary
(line 205), the task ends in status error with that non-empty message, and
the drain goes on to run the next queued task to completion — the process
is not terminated by the failure. -/
theorem failure_isolated_and_queue_continues
    (qe1 qe2 : QueueEnv) (t1 t2 : Task)
    (h1q : t1.status = Status.queued) (h2q : t2.status = Status.queued)
    (hcmd : qe1.exec.cmdCode ≠ 0)
    (hs1 : qe1.exec.saveInProgressOk = true) (hs3 : qe1.exec.saveCatchOk = true)
    (h2 : SavesOk qe2) (h2c : qe2.exec.cmdCode = 0) (h2r : qe2.exec.revParseCode = 0) :
    drainQueue [qe1, qe2] [t1, t2] =
      [{ t1 with status := Status.error
                 error := some ("Command failed with code "
                   ++ toString qe1.exec.cmdCode ++ ": " ++ qe1.exec.cmdStderr) },
       { t2 with status := Status.completed
                 commit := some (jsTrim qe2.exec.revParseStdout) }] ∧
    ("Command failed with code " ++ toString qe1.exec.cmdCode
        ++ ": " ++ qe1.exec.cmdStderr) ≠ "" := by
  constructor
  · obtain ⟨i1, p1, d1, s1, a1, c1, e1⟩ := t1
    obtain ⟨i2, p2, d2, s2, a2, c2, e2⟩ := t2
    dsimp only at h1q h2q
    subst h1q
    subst h2q
    simp [drainQueue, jsFindIndex, settleTask, processTask,
      hcmd, hs1, hs3, h2.1, h2.2.1, h2.2.2, h2c, h2r]
  · intro hcontra
    have hlen := congrArg String.length hcontra
    rw [String.length_append, String.length_append, String.length_append] at hlen
    have h25 : ("Command failed with code ").length = 25 := rfl
    have h0 : ("" : String).length = 0 := rfl
    rw [h25, h0] at hlen
    omega

/-- Witness for C5: command exits 1 with stderr "boom"; the first task
errors with the captured text, the second completes. -/
theorem failure_isolated_witness :
    drainQueue [⟨demoFailEnv, true⟩, ⟨demoOkEnv, true⟩] [demoTask, demoTaskB] =
      [{ demoTask with status := Status.error
                       error := some ("Command failed with code "
                         ++ toString demoFailEnv.cmdCode ++ ": " ++ demoFailEnv.cmdStderr) },
       { demoTaskB with status := Status.completed
                        commit := some (jsTrim demoOkEnv.revParseStdout) }] ∧
    ("Command failed with code " ++ toString demoFailEnv.cmdCode
        ++ ": " ++ demoFailEnv.cmdStderr) ≠ "" :=
  failure_isolated_and_queue_continues ⟨demoFailEnv, true⟩ ⟨demoOkEnv, true⟩
    demoTask demoTaskB rfl rfl (by decide) rfl rfl
    ⟨rfl, rfl, rfl⟩ rfl rfl

/-- Counterexample to C9 as stated: with the external command and rev-parse
succeeding, flipping only the terminal write's outcome flips the surviving
in-memory status from completed to error.  The failed write is not merely
logged: the catch at line 205 overwrites the completed transition that
preceded the save, so that mutation does not survive in memory. -/
theorem persistence_failure_counterexample :
    (processTask demoSaveFailEnv demoTask).1.status = Status.error ∧
    (processTask { demoSaveFailEnv with saveTerminalOk := true } demoTask).1.status
      = Status.completed := by decide

/-- C9 (amended): a failed `saveTasks` write in the POST handler leaves the
in-memory replace-and-append exactly as a successful one does — the
mutation survives and only the handler's response changes (500 instead of
202); but a failed terminal write inside `processTask` is caught at
line 205 and converts the task to status error carrying the write error's
message, replacing the completed transition that preceded the save. -/
theorem persistence_failure_behavior (tok now : String) (req : Request) (ts : List Task)
    (hh : hostOk req = true) (ha : authOk tok req = true) (hm : req.method = "POST") :
    ((handleRequest tok now false req ts).2 = submitStep ts req.body now ∧
     (handleRequest tok now true req ts).2 = submitStep ts req.body now ∧
     (handleRequest tok now false req ts).1 = HResponse.internalServerError) ∧
    (∀ (env : ExecEnv) (t : Task),
      env.saveInProgressOk = true → env.cmdCode = 0 → env.revParseCode = 0 →
      env.saveTerminalOk = false → env.saveCatchOk = true →
      (processTask env t).1.status = Status.error ∧
      (processTask env t).1.error = some env.saveTerminalMsg) := by
  constructor
  · refine ⟨?_, ?_, ?_⟩ <;> simp [handleRequest, hh, ha, hm]
  · intro env t h1 h2 h3 h4 h5
    simp [processTask, h1, h2, h3, h4, h5]

/-- Witness for C9's amended statement: a POST whose save fails still
replaces-and-appends in memory. -/
theorem persistence_failure_witness :
    (handleRequest "tok" "t1" false
        ⟨some "aa.localhost", some ("Bearer " ++ "tok"), "POST", "/", ⟨"a", "p", []⟩⟩
        []).2
      = submitStep [] ⟨"a", "p", []⟩ "t1" :=
  ((persistence_failure_behavior "tok" "t1" _ [] (by decide) (by decide) rfl).1).1

/-- Counterexample to C10 as stated: the command and `git rev-parse` both
exit 0, yet the task ends in status error because the terminal `saveTasks`
write fails and the catch at line 205 re-marks it. -/
theorem executor_success_counterexample :
    demoSaveFailEnv.cmdCode = 0 ∧ demoSaveFailEnv.revParseCode = 0 ∧
    (processTask demoSaveFailEnv demoTask).1.status ≠ Status.completed := by decide

/-- C10 (amended): in every execution where the configured command exits 0,
`git rev-parse HEAD` exits 0, and the two `saveTasks` writes on that path
succeed, the task is marked completed with `commit` equal to the trimmed
rev-parse stdout — for all values of the stash, add and commit exit codes,
which `processTask` never inspects (replacing them changes nothing). -/
theorem executor_success_ignores_git_codes (env : ExecEnv) (t : Task)
    (hc : env.cmdCode = 0) (hr : env.revParseCode = 0)
    (h1 : env.saveInProgressOk = true) (h2 : env.saveTerminalOk = true) :
    processTask env t =
      ({ t with status := Status.completed
                commit := some (jsTrim env.revParseStdout) }, none) ∧
    (∀ sc ac cc : Nat,
      processTask { env with stashCode := sc, addCode := ac, commitCode := cc } t
        = processTask env t) := by
  constructor
  · obtain ⟨i1, p1, d1, s1, a1, c1, e1⟩ := t
    simp [processTask, hc, hr, h1, h2]
  · intro sc ac cc
    rfl

/-- Witness for C10's amended statement: stash, add and commit exit 7, 3
and 9 while the command and rev-parse succeed; the task still completes
with the trimmed sha. -/
theorem executor_success_ignores_git_codes_witness :
    processTask ⟨7, 0, "", 3, 9, 0, " sha \n", "", true, "", true, "", true, ""⟩ demoTask
      = ({ demoTask with status := Status.completed
                         commit := some (jsTrim " sha \n") }, none) :=
  (executor_success_ignores_git_codes
    ⟨7, 0, "", 3, 9, 0, " sha \n", "", true, "", true, "", true, ""⟩ demoTask
    rfl rfl rfl rfl).1

/-! Scheduling order (C6). -/

theorem charsLE_refl (l : List Char) : charsLE l l = true := by
  induction l with
  | nil => rfl
  | cons a l ih =>
    unfold charsLE
    rw [if_neg (lt_irrefl a), if_neg (lt_irrefl a)]
    exact ih

theorem timeLE_refl (s : String) : timeLE s s = true := charsLE_refl s.data

theorem pickTask_min (ts : List Task)
    (hs : ts.Pairwise fun a b => timeLE a.submittedAt b.submittedAt = true)
    (t : Task) (hp : pickTask ts = some t) :
    t.status = Status.queued ∧
    ∀ u ∈ ts, u.status = Status.queued → timeLE t.submittedAt u.submittedAt = true := by
  induction ts with
  | nil => cases hp
  | cons x xs ih =>
    rw [List.pairwise_cons] at hs
    by_cases hx : x.status = Status.queued
    · have hfind : pickTask (x :: xs) = some x := by
        unfold pickTask
        exact List.find?_cons_of_pos _ (by simpa using hx)
      rw [hfind] at hp
      cases hp
      refine ⟨hx, ?_⟩
      intro u hu huq
      rcases List.mem_cons.1 hu with h | h
      · rw [h]
        exact timeLE_refl _
      · exact hs.1 u h
    · have hfind : pickTask (x :: xs) = pickTask xs := by
        unfold pickTask
        exact List.find?_cons_of_neg _ (by simpa using hx)
      rw [hfind] at hp
      obtain ⟨htq, hmin⟩ := ih hs.2 hp
      refine ⟨htq, ?_⟩
      intro u hu huq
      rcases List.mem_cons.1 hu with h | h
      · rw [h] at huq
        exact absurd huq hx
      · exact hmin u h huq

theorem pickTask_ignores_deps (ts : List Task) (f : Task → List String) :
    pickTask (ts.map fun t => { t with dependencies := f t })
      = (pickTask ts).map fun t => { t with dependencies := f t } := by
  induction ts with
  | nil => rfl
  | cons x xs ih =>
    rw [List.map_cons]
    by_cases hx : x.status = Status.queued
    · have h1 : pickTask ({ x with dependencies := f x }
          :: (xs.map fun t => { t with dependencies := f t }))
          = some { x with dependencies := f x } := by
        unfold pickTask
        exact List.find?_cons_of_pos _ (by simpa using hx)
      have h2 : pickTask (x :: xs) = some x := by
        unfold pickTask
        exact List.find?_cons_of_pos _ (by simpa using hx)
      rw [h1, h2]
      rfl
    · have h1 : pickTask ({ x with dependencies := f x }
          :: (xs.map fun t => { t with dependencies := f t }))
          = pickTask (xs.map fun t => { t with dependencies := f t }) := by
        unfold pickTask
        exact List.find?_cons_of_neg _ (by simpa using hx)
      have h2 : pickTask (x :: xs) = pickTask xs := by
        unfold pickTask
        exact List.find?_cons_of_neg _ (by simpa using hx)
      rw [h1, h2, ih]

theorem drainOrder_two (qe1 qe2 : QueueEnv) (a b : Task)
    (ha : a.status = Status.queued) (hb : b.status = Status.queued)
    (hok : (settleTask qe1 a).2 = true) :
    drainOrder [qe1, qe2] [a, b] = [a.id, b.id] := by
  have hterm := settleTask_status_terminal qe1 a
  cases hterm with
  | inl h => simp [drainOrder, jsFindIndex, ha, hb, hok, h]
  | inr h => simp [drainOrder, jsFindIndex, ha, hb, hok, h]

theorem submitStep_sorted (ts : List Task) (sub : Submission) (now : String)
    (hs : ts.Pairwise fun a b => timeLE a.submittedAt b.submittedAt = true)
    (hnow : ∀ t ∈ ts, timeLE t.submittedAt now = true) :
    (submitStep ts sub now).Pairwise
      fun a b => timeLE a.submittedAt b.submittedAt = true := by
  unfold submitStep
  rw [List.pairwise_append]
  refine ⟨hs.sublist (removeFirst_sublist _ ts), ?_, ?_⟩
  · simp
  · intro x hx y hy
    simp only [List.mem_singleton] at hy
    rw [hy]
    exact hnow x (mem_of_mem_removeFirst hx)

/-- C6: the processor's scan takes the first queued entry in store order.
In a store sorted by `submittedAt` — which submission preserves, since the
fresh timestamp of an appended task is no earlier than the existing ones —
the picked task is queued and submitted no later than every queued task,
while the tasks' `dependencies` never influence the choice; consequently
two queued tasks are started in store order, first a then b. -/
theorem picks_earliest_queued (ts : List Task)
    (hs : ts.Pairwise fun a b => timeLE a.submittedAt b.submittedAt = true) :
    (∀ t, pickTask ts = some t →
      t.status = Status.queued ∧
      ∀ u ∈ ts, u.status = Status.queued → timeLE t.submittedAt u.submittedAt = true) ∧
    (∀ f : Task → List String,
      pickTask (ts.map fun t => { t with dependencies := f t })
        = (pickTask ts).map fun t => { t with dependencies := f t }) ∧
    (∀ (sub : Submission) (now : String),
      (∀ t ∈ ts, timeLE t.submittedAt now = true) →
      (submitStep ts sub now).Pairwise
        fun a b => timeLE a.submittedAt b.submittedAt = true) ∧
    (∀ (qe1 qe2 : QueueEnv) (a b : Task),
      a.status = Status.queued → b.status = Status.queued →
      (settleTask qe1 a).2 = true →
      drainOrder [qe1, qe2] [a, b] = [a.id, b.id]) :=
  ⟨fun t hp => pickTask_min ts hs t hp,
   fun f => pickTask_ignores_deps ts f,
   fun sub now hnow => submitStep_sorted ts sub now hs hnow,
   fun qe1 qe2 a b ha hb hok => drainOrder_two qe1 qe2 a b ha hb hok⟩

/-- Witness for C6: in the sorted two-task store the scan picks the first
task, its submission time is no later than the other queued task's, and the
drain starts the tasks in submission order. -/
theorem picks_earliest_queued_witness :
    demoTask.status = Status.queued ∧
    timeLE demoTask.submittedAt demoTaskB.submittedAt = true ∧
    drainOrder [⟨demoOkEnv, true⟩, ⟨demoOkEnv, true⟩] [demoTask, demoTaskB]
      = [demoTask.id, demoTaskB.id] := by
  have h := picks_earliest_queued [demoTask, demoTaskB] (by decide)
  refine ⟨(h.1 demoTask (by decide)).1, ?_, ?_⟩
  · exact (h.1 demoTask (by decide)).2 demoTaskB (by decide) rfl
  · exact h.2.2.2 ⟨demoOkEnv, true⟩ ⟨demoOkEnv, true⟩ demoTask demoTaskB rfl rfl (by decide)

end AgentServer
